import Mathlib

/-!
Shallow embedding of the RoadRunner gRPC proxy plugin (package `proxy`,
plus the server-option assembly in `server.go`) and proofs about the
claims of its specification.

Conventions of the embedding:
* Go byte slices that carry text are modelled as `String`; a nilable
  slice is `Option String` (`none` models a `nil` slice).
* Machine integers are `Nat` with explicit bounds where overflow or
  bit-size matters (`strconv.ParseUint(s, 10, 32)` accepts values up to
  `2^32 - 1`).
* External collaborators (the worker pool's `Exec`, `base64.StdEncoding`,
  `proto.Unmarshal`, `grpc.SetHeader`) are parameters: the proxy code
  only branches on whether they succeed and on the values they return.
* Fallible Go functions returning `(T, error)` become functions into a
  product or sum capturing exactly the branches the source has.
-/

namespace GrpcProxy

/-! ## Constants (proxy.go, `const` block) -/

def peerAddr : String := ":peer.address"

def peerAuthType : String := ":peer.auth-type"

def delimiter : String := "|:|"

def apiErr : String := "error"

/-- Numeric value of `codes.Internal` in gRPC. -/
def internalCode : Nat := 13

/-! ## Go string helpers

The source uses `strings.Contains` / `strings.Split` with the non-empty
constant `delimiter`, and `strconv.ParseUint(chunks[0], 10, 32)`.
We implement splitting on a separator over character lists with a fuel
argument so that every definition is structurally recursive and
kernel-evaluable; with fuel at least the length of the input and a
non-empty separator the fuel is never exhausted, which is the only way
the code below calls it. -/

/-- Strip the separator characters from the front of a character list,
returning the remainder when the list starts with the separator. -/
def stripSep : List Char → List Char → Option (List Char)
  | [], cs => some cs
  | _ :: _, [] => none
  | s :: ss, c :: cs => if c = s then stripSep ss cs else none

/-- Fuel-indexed worker for splitting on a separator, accumulating the
current segment in reverse. Mirrors `strings.Split` for a non-empty
separator. -/
def goSplitAux (sep : List Char) : Nat → List Char → List Char → List (List Char)
  | 0, cs, acc => [acc.reverse ++ cs]
  | _ + 1, [], acc => [acc.reverse]
  | fuel + 1, c :: cs, acc =>
    match stripSep sep (c :: cs) with
    | some rest => acc.reverse :: goSplitAux sep fuel rest []
    | none => goSplitAux sep fuel cs (c :: acc)

/-- Split a string on a separator, as Go's `strings.Split` does for a
non-empty separator. -/
def goSplit (s sep : String) : List String :=
  (goSplitAux sep.data (s.data.length + 1) s.data []).map String.mk

/-- Containment of the delimiter: for a non-empty separator,
`strings.Contains s sep` holds exactly when splitting yields at least
two chunks. -/
def containsDelim (s : String) : Prop := 2 ≤ (goSplit s delimiter).length

instance (s : String) : Decidable (containsDelim s) :=
  inferInstanceAs (Decidable (2 ≤ (goSplit s delimiter).length))

/-- Model of `strconv.ParseUint(s, 10, 32)`: no sign, decimal digits
only, non-empty, value below `2^32`; `none` models a non-nil parse
error (including range errors for values at or above `2^32`). -/
def parseUint32 (s : String) : Option Nat :=
  if s.data.isEmpty then none
  else if s.data.all Char.isDigit then
    let v := s.data.foldl (fun acc c => acc * 10 + (c.toNat - 48)) 0
    if v < 4294967296 then some v else none
  else none

/-- ASCII lowercasing of a string, as `strings.ToLower` behaves on the
ASCII metadata keys this code handles. -/
def goToLower (s : String) : String := String.mk (s.data.map Char.toLower)

/-! ## Go errors and the error translator (`GetOriginalErr`, `wrapError`) -/

/-- Model of a Go `error` value reaching the proxy: either a plain error
(not a `*errors.Error`), carrying its `Error()` message, or a non-nil
`*errors.Error` wrapper carrying its own formatted `Error()` message and
its non-nil `Err` cause. (A typed-nil `*errors.Error` or a nil `Err`
field would make the source dereference nil; no caller produces them.) -/
inductive GoErr
  | plain (msg : String)
  | rr (msg : String) (inner : GoErr)
deriving DecidableEq

/-- Message of the error value itself, Go's `err.Error()`. -/
def errorString : GoErr → String
  | GoErr.plain m => m
  | GoErr.rr m _ => m

/-- Innermost message: unwrap `*errors.Error` wrappers depth-first
(proxy.go `GetOriginalErr`). -/
def GetOriginalErr : GoErr → String
  | GoErr.plain m => m
  | GoErr.rr _ inner => GetOriginalErr inner

/-- An `anypb.Any` detail message successfully deserialized from a
segment; its identity is the only thing the proxy code depends on. -/
structure AnyMsg where
  data : String
deriving DecidableEq

/-- The protobuf `spb.Status` value: code, message, details. -/
structure StatusProto where
  code : Nat
  message : String
  details : List AnyMsg
deriving DecidableEq

/-- Result of `wrapError`: either the original error value returned
unchanged, or a gRPC status error built by `status.ErrorProto` /
`status.Error`. -/
inductive WrapResult
  | original (e : GoErr)
  | statusErr (st : StatusProto)
deriving DecidableEq

/-- Detail-appending loop of `wrapError`
(`for _, detailsMessage := range chunks[2:]`): each remaining segment is
run through `proto.Unmarshal` into an `anypb.Any` (modelled by
`parseAny`); a successful parse is appended to the detail list, a
failed one is skipped. -/
def appendDetails (parseAny : String → Option AnyMsg) (st : StatusProto) :
    List String → StatusProto
  | [] => st
  | seg :: rest =>
    match parseAny seg with
    | some d => appendDetails parseAny { st with details := st.details ++ [d] } rest
    | none => appendDetails parseAny st rest

/-- proxy.go `wrapError`: translate a worker/pool error into a gRPC
status error using the internal delimited convention. `parseAny` models
`proto.Unmarshal` into `anypb.Any`. The catch-all split arm is the
source's `len(chunks) < 2` guard; the inner `if` is the range check
`phpCode > 0 && phpCode < math.MaxUint32` that keeps `codes.Internal`
otherwise. -/
def wrapError (parseAny : String → Option AnyMsg) (err : GoErr) : WrapResult :=
  if containsDelim (GetOriginalErr err) then
    match goSplit (GetOriginalErr err) delimiter with
    | c0 :: c1 :: rest =>
      match parseUint32 c0 with
      | none => WrapResult.original err
      | some phpCode =>
        WrapResult.statusErr
          (appendDetails parseAny
            { code := if 0 < phpCode ∧ phpCode < 4294967295 then phpCode else internalCode,
              message := c1, details := [] } rest)
    | _ => WrapResult.original err
  else
    WrapResult.statusErr { code := internalCode, message := errorString err, details := [] }

/-! ## JSON values and the decodings the source performs -/

/-- JSON document values, the abstract form of the bytes held in a
payload context field. -/
inductive Json
  | jnull
  | jbool (b : Bool)
  | jnum (n : Int)
  | jstr (s : String)
  | jarr (elems : List Json)
  | jobj (fields : List (String × Json))

/-- Decoding a JSON value into a Go `string`: only a JSON string
succeeds (any other value makes `json.Unmarshal` report a type error
for the enclosing map). -/
def decodeGoString : Json → Option String
  | Json.jstr s => some s
  | _ => none

/-- Model of `json.Unmarshal(bytes, &m)` for `m map[string]string`, as
`responseMetadata` performs it: the document must be an object and every
field value must be a JSON string. -/
def decodeStringMap : Json → Option (List (String × String))
  | Json.jobj fields =>
    fields.mapM (fun kv => (decodeGoString kv.2).map (fun v => (kv.1, v)))
  | _ => none

/-! ## gRPC metadata (`metadata.MD`, `metadata.New`, `MD.Get`) -/

/-- gRPC metadata: a map from keys to lists of values, modelled as an
association list with distinct keys (Go map iteration order is
abstracted by insertion order, which lookups cannot observe). -/
abbrev MD := List (String × List String)

/-- First-match association lookup, the model of Go map indexing. -/
def mdLookup : MD → String → Option (List String)
  | [], _ => none
  | (k0, vs) :: rest, k => if k0 = k then some vs else mdLookup rest k

/-- One step of `metadata.New`'s loop body
`md[key] = append(md[key], val)`: append to the key's value list,
creating the entry when absent. -/
def mdAppendVal : MD → String → String → MD
  | [], k, v => [(k, [v])]
  | (k0, vs) :: rest, k, v =>
    if k0 = k then (k0, vs ++ [v]) :: rest else (k0, vs) :: mdAppendVal rest k v

/-- Model of `metadata.New(m map[string]string)`: every key is
lowercased and its value appended. -/
def metadataNew (m : List (String × String)) : MD :=
  m.foldl (fun md kv => mdAppendVal md (goToLower kv.1) kv.2) []

/-- Model of `metadata.MD.Get`: lowercase the key, return its value
list (the map's zero value, the empty list, when absent). -/
def mdGet (md : MD) (k : String) : List String :=
  (mdLookup md (goToLower k)).getD []

/-! ## Payloads and the response side of the metadata bridge -/

/-- Codec tag of a payload frame; the proxy only ever sets
`frame.CodecJSON`, other codecs are collapsed into one constructor. -/
inductive Codec
  | json
  | other
deriving DecidableEq

/-- Contents of a payload context byte slice: length zero (covering a
nil slice and the fresh empty buffer), non-empty bytes that fail JSON
parsing, or bytes that parse as a JSON value. -/
inductive CtxBytes
  | empty
  | malformed
  | json (j : Json)

/-- The `payload.Payload` exchanged with the worker pool. A `none` body
models a nil byte slice. -/
structure Payload where
  body : Option String
  context : CtxBytes
  codec : Codec

/-- Failure kinds of the decoding steps inside `responseMetadata`, each
standing for the raw (non-status) Go error value the failing library
call returned. -/
inductive DecodeFail
  | jsonErr
  | b64Err
  | protoErr
deriving DecidableEq

/-- Error outcome of `responseMetadata`: a raw decode error propagated
as-is, or the status error built by `status.ErrorProto` from the
embedded error signal. -/
inductive RespErr
  | decode (k : DecodeFail)
  | override (st : StatusProto)
deriving DecidableEq

/-- External decoding collaborators used by `responseMetadata`:
`base64.StdEncoding.DecodeString` and `proto.Unmarshal` into
`spb.Status` (the decoded bytes are modelled as a `String`). -/
structure WireEnv where
  b64decode : String → Option String
  statusUnmarshal : String → Option StatusProto

/-- proxy.go `responseMetadata`: extract metadata from the worker
response context. Returns the metadata together with an optional error.
The final arm models that `status.ErrorProto(st)` is a nil error when
the status code is `OK` (0), as the source's own comment notes. -/
def responseMetadata (env : WireEnv) (resp : Option Payload) : MD × Option RespErr :=
  match resp with
  | none => ([], none)
  | some r =>
    match r.context with
    | CtxBytes.empty => ([], none)
    | CtxBytes.malformed => ([], some (RespErr.decode DecodeFail.jsonErr))
    | CtxBytes.json j =>
      match decodeStringMap j with
      | none => ([], some (RespErr.decode DecodeFail.jsonErr))
      | some rpcMetadata =>
        if 0 < rpcMetadata.length then
          let md := metadataNew rpcMetadata
          match mdGet md apiErr with
          | v0 :: _ =>
            match env.b64decode v0 with
            | none => ([], some (RespErr.decode DecodeFail.b64Err))
            | some data =>
              match env.statusUnmarshal data with
              | none => ([], some (RespErr.decode DecodeFail.protoErr))
              | some st =>
                (md, if st.code = 0 then none else some (RespErr.override st))
          | [] => (md, none)
        else ([], none)

/-! ## Request side of the metadata bridge (`makePayload`) -/

/-- Caller identity from `peer.FromContext`: the address string and,
when `AuthInfo` is non-nil, its `AuthType()`. -/
structure Peer where
  addr : String
  authInfo : Option String

/-- Go map assignment `m[k] = v` on the association-list model:
replace the value when the key exists, otherwise add the entry. -/
def mapSet : List (String × List String) → String → List String → List (String × List String)
  | [], k, v => [(k, v)]
  | (k0, v0) :: rest, k, v =>
    if k0 = k then (k, v) :: rest else (k0, v0) :: mapSet rest k v

/-- Context-map construction of `makePayload`: copy all inbound
metadata pairs, then (when a peer is attached) write the synthetic
`:peer.address` key and, only when authentication info is present, the
`:peer.auth-type` key. -/
def buildCtxMD (inMD : Option (List (String × List String))) (pr : Option Peer) :
    List (String × List String) :=
  let ctxMD :=
    match inMD with
    | some md => md.foldl (fun acc kv => mapSet acc kv.1 kv.2) []
    | none => []
  match pr with
  | some p =>
    let ctxMD := mapSet ctxMD peerAddr [p.addr]
    match p.authInfo with
    | some a => mapSet ctxMD peerAuthType [a]
    | none => ctxMD
  | none => ctxMD

/-- JSON encoding of the `rpcContext` struct that `makePayload`
marshals into the payload context. -/
def rpcContextJson (service method : String) (ctx : List (String × List String)) : Json :=
  Json.jobj
    [("service", Json.jstr service),
     ("method", Json.jstr method),
     ("context", Json.jobj (ctx.map (fun kv => (kv.1, Json.jarr (kv.2.map Json.jstr)))))]

/-- proxy.go `makePayload`: set the payload body to the raw inbound
message and the context to the JSON-encoded `rpcContext`.
`json.Marshal` cannot fail on this struct (strings and a map of string
lists), so the source's error return is unreachable and the model is
total. -/
def makePayload (service method : String) (inMD : Option (List (String × List String)))
    (pr : Option Peer) (body : Option String) (pld : Payload) : Payload :=
  { pld with
    body := body,
    context := CtxBytes.json (rpcContextJson service method (buildCtxMD inMD pr)) }

/-! ## Payload pool (`getPld`, `putPld`) and `invoke` -/

/-- proxy.go `getPld`: take an object from the payload pool and reset
its codec identity to `frame.CodecJSON`. -/
def getPld (pooled : Payload) : Payload := { pooled with codec := Codec.json }

/-- proxy.go `putPld`: clear the body and context byte slices (set to
nil) before returning the object to the pool. -/
def putPld (pld : Payload) : Payload :=
  { pld with body := none, context := CtxBytes.empty }

/-- The Go `error` value `invoke` returns to the transport layer: a raw
Go error (returned as-is), a gRPC status error, or a raw decode error
propagated from `responseMetadata`. -/
inductive CallErr
  | goErr (e : GoErr)
  | statusErr (st : StatusProto)
  | decodeErr (k : DecodeFail)
deriving DecidableEq

/-- Result of `invoke`: the raw response body with the metadata set as
headers, or an error. -/
inductive InvokeResult
  | ok (body : Option String) (headerMD : MD)
  | fail (e : CallErr)
deriving DecidableEq

/-- Events on the payload pool and the worker pool during one
invocation. -/
inductive PoolEvent
  | acquire
  | exec
  | release
deriving DecidableEq

/-- Outcomes of the external calls one invocation performs: the worker
pool's `Exec`, `grpc.SetHeader`, the wire decoders, and
`proto.Unmarshal` into `anypb.Any` used by the error translator. -/
structure InvokeEnv where
  execResult : Except GoErr Payload
  setHeaderErr : Option GoErr
  wire : WireEnv
  parseAny : String → Option AnyMsg

/-- Observable outcome of `invoke`: its return value, the sequence of
pool events, and the payload object handed back to the payload pool by
the deferred `putPld`. -/
structure InvokeOut where
  result : InvokeResult
  events : List PoolEvent
  returned : Payload

/-- proxy.go `invoke`: acquire a pooled payload, build it, execute it
on the worker pool under the read lock, translate a pool failure with
`wrapError`, otherwise parse the response metadata, set it as headers,
and return the raw response body. The deferred `putPld` releases the
payload on every path; `Exec` runs exactly once because building the
payload cannot fail (see `makePayload`). -/
def invoke (env : InvokeEnv) (service method : String)
    (inMD : Option (List (String × List String))) (pr : Option Peer)
    (body : Option String) (pooled : Payload) : InvokeOut :=
  let pld := makePayload service method inMD pr body (getPld pooled)
  let result :=
    match env.execResult with
    | Except.error e =>
      match wrapError env.parseAny e with
      | WrapResult.original e0 => InvokeResult.fail (CallErr.goErr e0)
      | WrapResult.statusErr st => InvokeResult.fail (CallErr.statusErr st)
    | Except.ok resp =>
      match responseMetadata env.wire (some resp) with
      | (_, some (RespErr.decode k)) => InvokeResult.fail (CallErr.decodeErr k)
      | (_, some (RespErr.override st)) => InvokeResult.fail (CallErr.statusErr st)
      | (md, none) =>
        match env.setHeaderErr with
        | some e => InvokeResult.fail (CallErr.goErr e)
        | none => InvokeResult.ok resp.body md
  { result := result,
    events := [PoolEvent.acquire, PoolEvent.exec, PoolEvent.release],
    returned := putPld pld }

/-! ## Service registration (`Proxy`, `RegisterMethod`, `ServiceDesc`) -/

/-- The fields of `proxy.Proxy` that registration depends on. -/
structure Proxy where
  name : String
  protoMetadata : String
  methods : List String

/-- proxy.go `RegisterMethod`: append the method name to the method
table. -/
def RegisterMethod (p : Proxy) (method : String) : Proxy :=
  { p with methods := p.methods ++ [method] }

/-- A `grpc.MethodDesc` entry: the advertised method name and the
method name captured by the handler closure `p.methodHandler(m)` that
the entry dispatches to. -/
structure MethodDesc where
  methodName : String
  handlerMethod : String
deriving DecidableEq

/-- The `grpc.ServiceDesc` the proxy produces. -/
structure GrpcServiceDesc where
  serviceName : String
  protoMetadata : String
  methods : List MethodDesc

/-- proxy.go `ServiceDesc`: pair the service name with one method entry
appended per registered method, in registration order. -/
def ServiceDesc (p : Proxy) : GrpcServiceDesc :=
  { serviceName := p.name,
    protoMetadata := p.protoMetadata,
    methods := p.methods.foldl (fun acc m => acc ++ [⟨m, m⟩]) [] }

/-! ## Server options (server.go `serverOptions`) -/

/-- Modelled from the spec: the plugin configuration's server tuning
fields ("max send/receive message size, keepalive
idle/age/age-grace/ping/timeout durations, max concurrent streams");
the configuration struct itself is not among the provided sources.
Durations are abstracted as `Nat` ticks. -/
structure Config where
  maxSendMsgSize : Nat
  maxRecvMsgSize : Nat
  maxConnectionIdle : Nat
  maxConnectionAge : Nat
  maxConnectionAgeGrace : Nat
  pingTime : Nat
  timeout : Nat
  maxConcurrentStreams : Nat

/-- The `keepalive.ServerParameters` record handed to
`grpc.KeepaliveParams`. -/
structure ServerParameters where
  maxConnectionIdle : Nat
  maxConnectionAge : Nat
  maxConnectionAgeGrace : Nat
  time : Nat
  timeout : Nat
deriving DecidableEq

/-- server.go `serverOptions`, keepalive block: the
`keepalive.ServerParameters` literal built from the configuration. The
`MaxConnectionAgeGrace` field is filled from `p.config.MaxConnectionAge`
in the source. -/
def keepaliveParams (c : Config) : ServerParameters :=
  { maxConnectionIdle := c.maxConnectionIdle,
    maxConnectionAge := c.maxConnectionAge,
    maxConnectionAgeGrace := c.maxConnectionAge,
    time := c.pingTime,
    timeout := c.timeout }

/-! ## Helper lemmas -/

/-- The detail loop appends exactly the successfully parsed segments,
in order. -/
theorem appendDetails_eq (pA : String → Option AnyMsg) (st : StatusProto)
    (segs : List String) :
    appendDetails pA st segs = { st with details := st.details ++ segs.filterMap pA } := by
  induction segs generalizing st with
  | nil => simp [appendDetails]
  | cons seg rest ih =>
    cases h : pA seg with
    | none => simp [appendDetails, h, ih]
    | some d => simp [appendDetails, h, ih]

/-- Unfolding of `wrapError` once the split of the innermost message is
known to have at least two chunks. -/
theorem wrapError_of_split (pA : String → Option AnyMsg) (err : GoErr) (c0 c1 : String)
    (rest : List String)
    (hs : goSplit (GetOriginalErr err) delimiter = c0 :: c1 :: rest) :
    wrapError pA err =
      match parseUint32 c0 with
      | none => WrapResult.original err
      | some phpCode =>
        WrapResult.statusErr
          { code := if 0 < phpCode ∧ phpCode < 4294967295 then phpCode else internalCode,
            message := c1, details := rest.filterMap pA } := by
  have hc : containsDelim (GetOriginalErr err) := by
    unfold containsDelim; rw [hs]; simp
  unfold wrapError
  rw [if_pos hc, hs]
  cases hp : parseUint32 c0 with
  | none => simp [hp]
  | some phpCode => simp [hp, appendDetails_eq]

/-- Lookup after a Go map assignment of the same key. -/
theorem mdLookup_mapSet_self (m : List (String × List String)) (k : String)
    (v : List String) : mdLookup (mapSet m k v) k = some v := by
  induction m with
  | nil => simp [mapSet, mdLookup]
  | cons p rest ih =>
    by_cases h : p.1 = k
    · simp [mapSet, h, mdLookup]
    · simp [mapSet, h, mdLookup, ih]

/-- Lookup of a different key is unchanged by a Go map assignment. -/
theorem mdLookup_mapSet_ne (m : List (String × List String)) (k k' : String)
    (v : List String) (h : k' ≠ k) : mdLookup (mapSet m k v) k' = mdLookup m k' := by
  induction m with
  | nil =>
    simp only [mapSet, mdLookup]
    rw [if_neg (fun hEq => h hEq.symm)]
  | cons p rest ih =>
    rcases p with ⟨k0, v0⟩
    by_cases h0 : k0 = k
    · subst h0
      simp only [mapSet, if_pos rfl, mdLookup]
      rw [if_neg (fun hEq => h hEq.symm), if_neg (fun hEq => h hEq.symm)]
    · simp only [mapSet, if_neg h0, mdLookup]
      by_cases h1 : k0 = k'
      · rw [if_pos h1, if_pos h1]
      · rw [if_neg h1, if_neg h1, ih]

/-- `metadata.New`'s append on a fresh key adds the entry at the end. -/
theorem mdAppendVal_notMem (md : MD) (k v : String)
    (h : ∀ p ∈ md, p.1 ≠ k) : mdAppendVal md k v = md ++ [(k, [v])] := by
  induction md with
  | nil => simp [mdAppendVal]
  | cons p rest ih =>
    have hp : p.1 ≠ k := h p (by simp)
    simp [mdAppendVal, hp]
    exact ih (fun q hq => h q (by simp [hq]))

/-- The fold of `metadata.New` over pairwise-distinct lowered keys. -/
theorem metadataNew_go (m : List (String × String)) (md0 : MD)
    (hdisj : ∀ kv ∈ m, ∀ p ∈ md0, p.1 ≠ goToLower kv.1)
    (hn : (m.map (fun kv => goToLower kv.1)).Nodup) :
    m.foldl (fun md kv => mdAppendVal md (goToLower kv.1) kv.2) md0
      = md0 ++ m.map (fun kv => (goToLower kv.1, [kv.2])) := by
  induction m generalizing md0 with
  | nil => simp
  | cons kv rest ih =>
    have hhead : ∀ p ∈ md0, p.1 ≠ goToLower kv.1 := fun p hp => hdisj kv (by simp) p hp
    have hn' : (rest.map (fun kv => goToLower kv.1)).Nodup := (List.nodup_cons.1 hn).2
    have hni : goToLower kv.1 ∉ rest.map (fun kv => goToLower kv.1) := (List.nodup_cons.1 hn).1
    simp only [List.foldl_cons, List.map_cons]
    rw [mdAppendVal_notMem md0 (goToLower kv.1) kv.2 hhead]
    rw [ih (md0 ++ [(goToLower kv.1, [kv.2])]) ?_ hn']
    · simp
    · intro kv2 h2 p hp
      rcases List.mem_append.1 hp with hmem | hmem
      · exact hdisj kv2 (by simp [h2]) p hmem
      · have hp1 : p = (goToLower kv.1, [kv.2]) := by simpa using hmem
        subst hp1
        intro hEq
        apply hni
        rw [show goToLower kv.1 = goToLower kv2.1 from hEq]
        exact List.mem_map_of_mem (fun kv => goToLower kv.1) h2

/-- Characterization of `metadata.New` over pairwise-distinct lowered
keys: one singleton entry per input pair, in order. -/
theorem metadataNew_eq (m : List (String × String))
    (hn : (m.map (fun kv => goToLower kv.1)).Nodup) :
    metadataNew m = m.map (fun kv => (goToLower kv.1, [kv.2])) := by
  unfold metadataNew
  rw [metadataNew_go m [] (by simp) hn]
  simp

/-- Lookup of a key absent from the lowered key set of a
`metadata.New` image. -/
theorem mdLookup_map_not_mem (m : List (String × String)) (k : String)
    (h : ∀ kv ∈ m, goToLower kv.1 ≠ k) :
    mdLookup (m.map (fun kv => (goToLower kv.1, [kv.2]))) k = none := by
  induction m with
  | nil => rfl
  | cons kv rest ih =>
    simp only [List.map_cons, mdLookup, h kv (by simp), if_false]
    exact ih (fun kv2 h2 => h kv2 (by simp [h2]))

/-- Lookup of a present pair in a `metadata.New` image with
pairwise-distinct lowered keys. -/
theorem mdLookup_map_of_mem (m : List (String × String)) (k v : String)
    (hn : (m.map (fun kv => goToLower kv.1)).Nodup) (hmem : (k, v) ∈ m) :
    mdLookup (m.map (fun kv => (goToLower kv.1, [kv.2]))) (goToLower k) = some [v] := by
  induction m with
  | nil => simp at hmem
  | cons kv rest ih =>
    rcases List.mem_cons.1 hmem with hh | ht
    · subst hh
      simp [mdLookup]
    · have hn' := (List.nodup_cons.1 hn).2
      have hni := (List.nodup_cons.1 hn).1
      have hne : goToLower kv.1 ≠ goToLower k := by
        intro hEq
        apply hni
        show goToLower kv.1 ∈ rest.map (fun kv => goToLower kv.1)
        rw [hEq]
        exact List.mem_map_of_mem (fun kv => goToLower kv.1) ht
      simp only [List.map_cons, mdLookup, hne, if_false]
      exact ih hn' ht

/-- The descriptor fold is a map over the registered names. -/
theorem serviceDescFold_eq (l : List String) (acc : List MethodDesc) :
    l.foldl (fun acc m => acc ++ [⟨m, m⟩]) acc
      = acc ++ l.map (fun m => (⟨m, m⟩ : MethodDesc)) := by
  induction l generalizing acc with
  | nil => simp
  | cons x t ih => simp [ih]

/-- Filtering descriptor entries by a name counts the name's
registrations. -/
theorem filter_map_methodName (l : List String) (s : String) :
    ((l.map (fun x => (⟨x, x⟩ : MethodDesc))).filter
        (fun d => d.methodName == s)).length = l.count s := by
  induction l with
  | nil => rfl
  | cons x t ih =>
    simp only [List.map_cons, List.filter_cons, List.count_cons]
    by_cases h : x = s
    · subst h; simp [ih]
    · simp [h, ih]

/-! ## Claim theorems -/

/-- C1, counterexample: the claim says a first segment that parses to a
value outside `(0, 2^32)` (here `0`) makes the translator return the
original error unchanged; the code instead builds a status with the
generic `Internal` code and the second segment as message. -/
theorem c1_counterexample :
    wrapError (fun _ => none) (GoErr.plain "0|:|boom")
      = WrapResult.statusErr { code := 13, message := "boom", details := [] } := by
  decide

/-- C1 (amended): when the innermost message splits on the delimiter
into at least two chunks, a first segment that fails 32-bit unsigned
parsing (non-numeric, empty, or value at least `2^32`) makes
`wrapError` return the original error unchanged; a first segment that
parses to `0` or to `2^32 - 1` does not abort translation — a status is
still built, with the generic `Internal` code. -/
theorem c1_out_of_range_first_segment (pA : String → Option AnyMsg) (err : GoErr)
    (c0 c1 : String) (rest : List String)
    (hs : goSplit (GetOriginalErr err) delimiter = c0 :: c1 :: rest) :
    (parseUint32 c0 = none → wrapError pA err = WrapResult.original err) ∧
    (∀ k, parseUint32 c0 = some k → k = 0 ∨ k = 4294967295 →
      wrapError pA err = WrapResult.statusErr
        { code := internalCode, message := c1, details := rest.filterMap pA }) := by
  constructor
  · intro hp
    rw [wrapError_of_split pA err c0 c1 rest hs, hp]
  · intro k hp hk
    rw [wrapError_of_split pA err c0 c1 rest hs, hp]
    have hnot : ¬(0 < k ∧ k < 4294967295) := by
      rcases hk with h | h <;> subst h <;> simp
    simp [hnot]

/-- C1, witness: the amended theorem applied to a non-numeric first
segment. -/
theorem c1_witness :
    parseUint32 "abc" = none ∧
    wrapError (fun _ => none) (GoErr.plain "abc|:|boom")
      = WrapResult.original (GoErr.plain "abc|:|boom") :=
  ⟨by decide,
   (c1_out_of_range_first_segment (fun _ => none) (GoErr.plain "abc|:|boom")
      "abc" "boom" [] (by decide)).1 (by decide)⟩

/-- C2, code bug: the claim (and the spec's tuning surface) say the
keepalive age-grace option equals the configured age-grace duration,
but `serverOptions` fills `MaxConnectionAgeGrace` from
`p.config.MaxConnectionAge`: with age `1` and age-grace `2` the
transport server receives age-grace `1`. -/
theorem c2_age_grace_uses_age :
    (keepaliveParams
        { maxSendMsgSize := 50, maxRecvMsgSize := 50, maxConnectionIdle := 10,
          maxConnectionAge := 1, maxConnectionAgeGrace := 2, pingTime := 3,
          timeout := 4, maxConcurrentStreams := 5 }).maxConnectionAgeGrace = 1 := by
  decide

/-- C3, counterexample: the claim says a response context of the wire
form with list values, here the object mapping "k" to the list ["v"],
decodes successfully; the code decodes into a map of single strings, so
this context fails decoding and is propagated as a hard error. -/
theorem c3_counterexample :
    responseMetadata { b64decode := fun _ => none, statusUnmarshal := fun _ => none }
        (some { body := some "b",
                context := CtxBytes.json (Json.jobj [("k", Json.jarr [Json.jstr "v"])]),
                codec := Codec.json })
      = ([], some (RespErr.decode DecodeFail.jsonErr)) := by
  decide

/-- C3 (amended): the bridge JSON-decodes a non-empty response context
into a string-keyed map of single string values; when that decoding
succeeds and the map holds only ordinary keys (no key lowercasing to
the reserved "error"), the result is a metadata map carrying every key
(lowercased) with its value, and no error. -/
theorem c3_string_map_decode (env : WireEnv) (b : Option String) (c : Codec)
    (j : Json) (pairs : List (String × String))
    (hdec : decodeStringMap j = some pairs)
    (hn : (pairs.map (fun kv => goToLower kv.1)).Nodup)
    (hnoerr : ∀ kv ∈ pairs, goToLower kv.1 ≠ "error") :
    responseMetadata env (some { body := b, context := CtxBytes.json j, codec := c })
      = (metadataNew pairs, none) ∧
    ∀ kv ∈ pairs, mdGet (metadataNew pairs) kv.1 = [kv.2] := by
  have hmeta := metadataNew_eq pairs hn
  have herr : mdGet (metadataNew pairs) apiErr = [] := by
    unfold mdGet
    rw [hmeta, show goToLower apiErr = "error" from by decide,
      mdLookup_map_not_mem pairs "error" hnoerr]
    rfl
  constructor
  · cases pairs with
    | nil => simp [responseMetadata, hdec, metadataNew]
    | cons kv rest =>
      simp [responseMetadata, hdec, herr]
  · intro kv hkv
    unfold mdGet
    rw [hmeta, mdLookup_map_of_mem pairs kv.1 kv.2 hn (by simpa using hkv)]
    rfl

/-- C3, witness: a context with the single ordinary pair
"User-Id" mapping to "42" yields metadata preserving it under the
lowercased key. -/
theorem c3_witness :
    responseMetadata { b64decode := fun _ => none, statusUnmarshal := fun _ => none }
        (some { body := some "b",
                context := CtxBytes.json (Json.jobj [("User-Id", Json.jstr "42")]),
                codec := Codec.json })
      = ([("user-id", ["42"])], none) := by
  rw [(c3_string_map_decode { b64decode := fun _ => none, statusUnmarshal := fun _ => none }
      (some "b") Codec.json (Json.jobj [("User-Id", Json.jstr "42")]) [("User-Id", "42")]
      (by decide) (by decide) (by decide)).1]
  decide

/-- C4, counterexample: a malformed worker response context makes
`invoke` return the raw JSON decode error, not a generic internal-code
structured status (`CallErr.decodeErr` is the raw propagated library
error, a different constructor from `CallErr.statusErr`). -/
theorem c4_counterexample :
    (invoke
        { execResult := Except.ok
            { body := some "pong", context := CtxBytes.malformed, codec := Codec.json },
          setHeaderErr := none,
          wire := { b64decode := fun _ => none, statusUnmarshal := fun _ => none },
          parseAny := fun _ => none }
        "pkg.Greeter" "Hello" none none (some "ping")
        { body := none, context := CtxBytes.empty, codec := Codec.other }).result
      = InvokeResult.fail (CallErr.decodeErr DecodeFail.jsonErr) := by
  decide

/-- C4 (amended): when decoding the worker response fails (malformed
context JSON, malformed base64, or malformed protobuf in the embedded
error signal), `invoke` propagates the raw decode error to the caller
unchanged; no internal-code status is built for it. -/
theorem c4_decode_error_propagated_raw (env : InvokeEnv) (service method : String)
    (inMD : Option (List (String × List String))) (pr : Option Peer)
    (body : Option String) (pooled : Payload) {resp : Payload} {md : MD}
    {k : DecodeFail}
    (hE : env.execResult = Except.ok resp)
    (hR : responseMetadata env.wire (some resp) = (md, some (RespErr.decode k))) :
    (invoke env service method inMD pr body pooled).result
      = InvokeResult.fail (CallErr.decodeErr k) := by
  simp [invoke, hE, hR]

/-- C4, witness: the amended theorem applied to a response whose
embedded error signal holds invalid base64. -/
theorem c4_witness :
    (invoke
        { execResult := Except.ok
            { body := some "pong",
              context := CtxBytes.json (Json.jobj [("error", Json.jstr "!!!")]),
              codec := Codec.json },
          setHeaderErr := none,
          wire := { b64decode := fun _ => none, statusUnmarshal := fun _ => none },
          parseAny := fun _ => none }
        "pkg.Greeter" "Hello" none none (some "ping")
        { body := none, context := CtxBytes.empty, codec := Codec.other }).result
      = InvokeResult.fail (CallErr.decodeErr DecodeFail.b64Err) := by
  exact c4_decode_error_propagated_raw _ "pkg.Greeter" "Hello" none none (some "ping")
    { body := none, context := CtxBytes.empty, codec := Codec.other } rfl rfl

/-- C5, counterexample: the claim says any decoded context whose
"error" key holds valid base64 of a valid status is returned as the
call's error; a status with code `OK` (0) is also a valid status, yet
`status.ErrorProto` is then a nil error and the invocation succeeds
normally, using the response body. -/
theorem c5_counterexample :
    (invoke
        { execResult := Except.ok
            { body := some "pong",
              context := CtxBytes.json (Json.jobj [("error", Json.jstr "QUJD")]),
              codec := Codec.json },
          setHeaderErr := none,
          wire := { b64decode := fun s => if s = "QUJD" then some "okbytes" else none,
                    statusUnmarshal := fun s =>
                      if s = "okbytes" then some { code := 0, message := "", details := [] }
                      else none },
          parseAny := fun _ => none }
        "pkg.Greeter" "Hello" none none (some "ping")
        { body := none, context := CtxBytes.empty, codec := Codec.other }).result
      = InvokeResult.ok (some "pong") [("error", ["QUJD"])] := by
  decide

/-- C5 (amended): when the decoded context map holds the reserved
"error" key whose first value base64-decodes and
protobuf-deserializes to a status with nonzero code, the invocation
returns exactly that status (code, message, details unmodified) as the
call's error and the response body is not used as the result. -/
theorem c5_override_status_error (env : InvokeEnv) (service method : String)
    (inMD : Option (List (String × List String))) (pr : Option Peer)
    (body : Option String) (pooled : Payload) {resp : Payload} {j : Json}
    {m : List (String × String)} {v0 : String} {vs : List String}
    {data : String} {st : StatusProto}
    (hE : env.execResult = Except.ok resp)
    (hctx : resp.context = CtxBytes.json j)
    (hm : decodeStringMap j = some m)
    (hlen : 0 < m.length)
    (hget : mdGet (metadataNew m) apiErr = v0 :: vs)
    (hb : env.wire.b64decode v0 = some data)
    (hst : env.wire.statusUnmarshal data = some st)
    (hcode : st.code ≠ 0) :
    (invoke env service method inMD pr body pooled).result
      = InvokeResult.fail (CallErr.statusErr st) := by
  have hR : responseMetadata env.wire (some resp)
      = (metadataNew m, some (RespErr.override st)) := by
    simp [responseMetadata, hctx, hm, hlen, hget, hb, hst, hcode]
  simp [invoke, hE, hR]

/-- C5, witness: a status with code 3 and message "bad arg" embedded in
the response context is returned as the call's error. -/
theorem c5_witness :
    (invoke
        { execResult := Except.ok
            { body := some "pong",
              context := CtxBytes.json (Json.jobj [("error", Json.jstr "QjA=")]),
              codec := Codec.json },
          setHeaderErr := none,
          wire := { b64decode := fun s => if s = "QjA=" then some "stbytes" else none,
                    statusUnmarshal := fun s =>
                      if s = "stbytes" then some { code := 3, message := "bad arg", details := [] }
                      else none },
          parseAny := fun _ => none }
        "pkg.Greeter" "Hello" none none (some "ping")
        { body := none, context := CtxBytes.empty, codec := Codec.other }).result
      = InvokeResult.fail (CallErr.statusErr { code := 3, message := "bad arg", details := [] }) := by
  refine c5_override_status_error _ "pkg.Greeter" "Hello" none none (some "ping")
    { body := none, context := CtxBytes.empty, codec := Codec.other }
    rfl rfl rfl (by decide) rfl rfl rfl (by decide)

/-- C6: a pool error whose innermost unwrapped message does not contain
the delimiter is translated to a status with the generic `Internal`
code and the full original message `err.Error()` verbatim. -/
theorem c6_no_delimiter_generic_internal (pA : String → Option AnyMsg) (err : GoErr)
    (h : ¬ containsDelim (GetOriginalErr err)) :
    wrapError pA err
      = WrapResult.statusErr { code := internalCode, message := errorString err, details := [] } := by
  unfold wrapError
  rw [if_neg h]

/-- C6, witness: a wrapped error whose innermost message "boom" has no
delimiter becomes an Internal status carrying the full outer message. -/
theorem c6_witness :
    wrapError (fun _ => none) (GoErr.rr "svc op: boom" (GoErr.plain "boom"))
      = WrapResult.statusErr { code := 13, message := "svc op: boom", details := [] } :=
  c6_no_delimiter_generic_internal (fun _ => none)
    (GoErr.rr "svc op: boom" (GoErr.plain "boom")) (by decide)

/-- C7: with a valid in-range code segment, each segment after the
second that deserializes as an `anypb.Any` detail is appended to the
status's detail list in its original order (`List.filterMap` keeps
order), and each segment that fails to deserialize is dropped
individually without making the overall translation fail. -/
theorem c7_details_order_and_drop (pA : String → Option AnyMsg) (err : GoErr)
    (c0 c1 : String) (rest : List String) (k : Nat)
    (hs : goSplit (GetOriginalErr err) delimiter = c0 :: c1 :: rest)
    (hp : parseUint32 c0 = some k) (h0 : 0 < k) (h1 : k < 4294967295) :
    wrapError pA err
      = WrapResult.statusErr { code := k, message := c1, details := rest.filterMap pA } := by
  rw [wrapError_of_split pA err c0 c1 rest hs, hp]
  simp [h0, h1]

/-- C7, witness: message "5|:|not found|:|d1|:|d2" with a deserializer
accepting only "d1" yields code 5, message "not found", and exactly the
detail from "d1", with "d2" dropped. -/
theorem c7_witness :
    wrapError (fun s => if s = "d1" then some { data := "d1" } else none)
        (GoErr.plain "5|:|not found|:|d1|:|d2")
      = WrapResult.statusErr
          { code := 5, message := "not found", details := [{ data := "d1" }] } := by
  rw [c7_details_order_and_drop (fun s => if s = "d1" then some { data := "d1" } else none)
      (GoErr.plain "5|:|not found|:|d1|:|d2") "5" "not found" ["d1", "d2"] 5
      (by decide) (by decide) (by decide) (by decide)]
  decide

/-- C8: every invocation performs exactly one payload acquire/release
pair and exactly one pool execution (the event trace is acquire, exec,
release on every path), the released payload has its body and context
cleared, and a newly acquired payload has its codec identity reset to
the JSON codec. -/
theorem c8_pool_discipline (env : InvokeEnv) (service method : String)
    (inMD : Option (List (String × List String))) (pr : Option Peer)
    (body : Option String) (pooled : Payload) :
    (invoke env service method inMD pr body pooled).events
      = [PoolEvent.acquire, PoolEvent.exec, PoolEvent.release] ∧
    (invoke env service method inMD pr body pooled).returned.body = none ∧
    (invoke env service method inMD pr body pooled).returned.context = CtxBytes.empty ∧
    (getPld pooled).codec = Codec.json :=
  ⟨rfl, rfl, rfl, rfl⟩

/-- C9: the generated service descriptor pairs the service's name with
exactly one handler entry per registered name, in registration order;
each entry's handler dispatches to its own method name; a duplicate
registration produces a duplicate dispatch entry (the filter count
equals the registration count, with no deduplication). -/
theorem c9_service_desc (p : Proxy) (m : String) :
    (ServiceDesc p).serviceName = p.name ∧
    (ServiceDesc p).methods = p.methods.map (fun s => ⟨s, s⟩) ∧
    (∀ s, ((ServiceDesc p).methods.filter (fun d => d.methodName == s)).length
      = p.methods.count s) ∧
    (ServiceDesc (RegisterMethod p m)).methods = (ServiceDesc p).methods ++ [⟨m, m⟩] := by
  have hm : (ServiceDesc p).methods = p.methods.map (fun s => (⟨s, s⟩ : MethodDesc)) := by
    unfold ServiceDesc
    rw [serviceDescFold_eq]
    simp
  have hm2 : (ServiceDesc (RegisterMethod p m)).methods
      = (p.methods ++ [m]).map (fun s => (⟨s, s⟩ : MethodDesc)) := by
    unfold ServiceDesc RegisterMethod
    rw [serviceDescFold_eq]
    simp
  refine ⟨rfl, hm, ?_, ?_⟩
  · intro s
    rw [hm, filter_map_methodName]
  · rw [hm, hm2]
    simp

/-- C10, counterexample: the claim says a caller-supplied
":peer.auth-type" value is overwritten by the peer-derived value and
that the key is only present when the peer carries authentication info;
with a peer that has no authentication info, the caller-supplied value
survives unchanged in the outbound context. -/
theorem c10_counterexample :
    mdLookup (buildCtxMD (some [(":peer.auth-type", ["caller"])])
        (some { addr := "10.0.0.1:1234", authInfo := none })) ":peer.auth-type"
      = some ["caller"] := by
  decide

/-- C10 (amended): the synthetic peer keys are written after the
inbound metadata is copied, so ":peer.address" always carries the
peer's address (overwriting any caller-supplied value), and
":peer.auth-type" carries the peer's authentication type when
authentication info is present (overwriting any caller-supplied value);
when it is absent the ":peer.auth-type" entry of the copied inbound
metadata is left untouched. -/
theorem c10_peer_key_overwrite (inMD : Option (List (String × List String)))
    (addr a : String) :
    mdLookup (buildCtxMD inMD (some { addr := addr, authInfo := some a })) peerAddr
      = some [addr] ∧
    mdLookup (buildCtxMD inMD (some { addr := addr, authInfo := none })) peerAddr
      = some [addr] ∧
    mdLookup (buildCtxMD inMD (some { addr := addr, authInfo := some a })) peerAuthType
      = some [a] ∧
    mdLookup (buildCtxMD inMD (some { addr := addr, authInfo := none })) peerAuthType
      = mdLookup (buildCtxMD inMD none) peerAuthType := by
  refine ⟨?_, ?_, ?_, ?_⟩
  · simp only [buildCtxMD]
    rw [mdLookup_mapSet_ne _ _ _ _ (by decide), mdLookup_mapSet_self]
  · simp only [buildCtxMD]
    rw [mdLookup_mapSet_self]
  · simp only [buildCtxMD]
    rw [mdLookup_mapSet_self]
  · simp only [buildCtxMD]
    rw [mdLookup_mapSet_ne _ _ _ _ (by decide)]

end GrpcProxy
